import Mathlib

/-!
Verification of the CSV edit-log codec and replay-reconstruction engine of the
VS Code Recorder extension (src/src/utilities.ts, src/src/recording.ts and the
newer recording module provided as src/unnamed/part_000).

Strings are modelled as lists of characters (`Str`).  Every JavaScript
`String.prototype.replace(/pat/g, repl)` call with a fixed pattern is embedded
as its own recursive scanner that, at each position, takes the leftmost match,
emits the replacement without rescanning it, and continues after the match —
exactly the semantics of a global regex replace with a literal pattern.
JavaScript numbers that can be `NaN` (results of `Number.parseInt`) are
embedded as `Option Int`, with `none` playing the role of `NaN`.
-/

namespace VSCR

abbrev Str := List Char

/-- Shorthand turning a Lean string literal into the `List Char` representation. -/
def strL (s : String) : Str := s.data

/-! ## Row codec: escaping (utilities.ts, `escapeString`) -/

/-- First step of `escapeString`: `.replace(/"/g, '""')` — every double quote is doubled. -/
def repQuoteDouble : Str → Str
  | [] => []
  | c :: cs => if c = '"' then '"' :: '"' :: repQuoteDouble cs else c :: repQuoteDouble cs

/-- Second step of `escapeString`: `.replace(/\r\n/g, '\\r\\n')` — each CRLF pair becomes
the four literal characters backslash-r-backslash-n. -/
def repCrlfEnc : Str → Str
  | [] => []
  | [c] => [c]
  | c1 :: c2 :: cs =>
    if c1 = '\r' ∧ c2 = '\n' then '\\' :: 'r' :: '\\' :: 'n' :: repCrlfEnc cs
    else c1 :: repCrlfEnc (c2 :: cs)

/-- Third step of `escapeString`: `.replace(/\n/g, '\\n')`. -/
def repLfEnc : Str → Str
  | [] => []
  | c :: cs => if c = '\n' then '\\' :: 'n' :: repLfEnc cs else c :: repLfEnc cs

/-- Fourth step of `escapeString`: `.replace(/\r/g, '\\r')`. -/
def repCrEnc : Str → Str
  | [] => []
  | c :: cs => if c = '\r' then '\\' :: 'r' :: repCrEnc cs else c :: repCrEnc cs

/-- Fifth step of `escapeString`: `.replace(/\t/g, '\\t')`. -/
def repTabEnc : Str → Str
  | [] => []
  | c :: cs => if c = '\t' then '\\' :: 't' :: repTabEnc cs else c :: repTabEnc cs

/-- `escapeString` (utilities.ts): the five replacement passes in source order. -/
def escapeString (editorText : Str) : Str :=
  repTabEnc (repCrEnc (repLfEnc (repCrlfEnc (repQuoteDouble editorText))))

/-! ## Row codec: unescaping (utilities.ts, `removeDoubleQuotes` / `unescapeString`) -/

/-- Characters matched by `.` in a JavaScript regex without the `s` flag:
everything except the four line terminators. -/
def isRegexDot (c : Char) : Bool := ¬ (c = '\n' ∨ c = '\r' ∨ c = ' ' ∨ c = ' ')

/-- `removeDoubleQuotes` (utilities.ts): `text.replace(/^"(.*)"$/, '$1')`.
The anchored pattern matches only when the string starts and ends with two distinct
quote characters and the span between them contains no line terminator (the
greedy `.*` cannot match those); on a match the two outer quotes are stripped,
otherwise the string is returned unchanged. -/
def removeDoubleQuotes (text : Str) : Str :=
  if 2 ≤ text.length ∧ text.head? = some '"' ∧ text.getLast? = some '"' ∧
      ((text.drop 1).dropLast.all isRegexDot) = true
  then (text.drop 1).dropLast else text

/-- First step of `unescapeString`: `.replace(/""/g, '"')`. -/
def unrepQuote : Str → Str
  | [] => []
  | [c] => [c]
  | c1 :: c2 :: cs =>
    if c1 = '"' ∧ c2 = '"' then '"' :: unrepQuote cs
    else c1 :: unrepQuote (c2 :: cs)

/-- Second step of `unescapeString`: `.replace(/\\r\\n/g, '\r\n')` — the four literal
characters backslash-r-backslash-n become a CRLF pair. -/
def unrepCrlf : Str → Str
  | [] => []
  | [c] => [c]
  | [c1, c2] => [c1, c2]
  | [c1, c2, c3] => [c1, c2, c3]
  | c1 :: c2 :: c3 :: c4 :: cs =>
    if c1 = '\\' ∧ c2 = 'r' ∧ c3 = '\\' ∧ c4 = 'n' then '\r' :: '\n' :: unrepCrlf cs
    else c1 :: unrepCrlf (c2 :: c3 :: c4 :: cs)

/-- Third step of `unescapeString`: `.replace(/\\n/g, '\n')`. -/
def unrepLf : Str → Str
  | [] => []
  | [c] => [c]
  | c1 :: c2 :: cs =>
    if c1 = '\\' ∧ c2 = 'n' then '\n' :: unrepLf cs
    else c1 :: unrepLf (c2 :: cs)

/-- Fourth step of `unescapeString`: `.replace(/\\r/g, '\r')`. -/
def unrepCr : Str → Str
  | [] => []
  | [c] => [c]
  | c1 :: c2 :: cs =>
    if c1 = '\\' ∧ c2 = 'r' then '\r' :: unrepCr cs
    else c1 :: unrepCr (c2 :: cs)

/-- Fifth step of `unescapeString`: `.replace(/\\t/g, '\t')`. -/
def unrepTab : Str → Str
  | [] => []
  | [c] => [c]
  | c1 :: c2 :: cs =>
    if c1 = '\\' ∧ c2 = 't' then '\t' :: unrepTab cs
    else c1 :: unrepTab (c2 :: cs)

/-- `unescapeString` (utilities.ts): the five replacement passes in source order. -/
def unescapeString (text : Str) : Str :=
  unrepTab (unrepCr (unrepLf (unrepCrlf (unrepQuote text))))

/-- The encoder's treatment of the text field in `buildCsvRow`:
`"${escapeString(text)}"` — the escaped text wrapped in double quotes. -/
def encodeTextField (text : Str) : Str := '"' :: escapeString text ++ ['"']

/-- The decoder's treatment of the text field in `processCSVLine`:
`unescapeString(removeDoubleQuotes(lineArr[5]))`. -/
def decodeTextField (fieldText : Str) : Str := unescapeString (removeDoubleQuotes fieldText)

/-! ## Subtitle time formatting (utilities.ts, `formatSrtTime`) -/

/-- Model of JavaScript `String.prototype.padStart(targetLength, pad)` for a
single-character pad string. -/
def padStart (s : String) (targetLength : Nat) (pad : Char) : String :=
  ⟨List.replicate (targetLength - s.data.length) pad ++ s.data⟩

/-- `formatSrtTime` (utilities.ts): renders a millisecond count as `HH:MM:SS,mmm`. -/
def formatSrtTime (milliseconds : Nat) : String :=
  let seconds := milliseconds / 1000
  let hours := seconds / 3600
  let minutes := (seconds % 3600) / 60
  let remainingSeconds := seconds % 60
  let remainingMilliseconds := milliseconds % 1000
  padStart (toString hours) 2 '0' ++ ":" ++ padStart (toString minutes) 2 '0' ++ ":" ++
    padStart (toString remainingSeconds) 2 '0' ++ "," ++
    padStart (toString remainingMilliseconds) 3 '0'

/-- The spec's description of the subtitle time range rendering, written with the
hour, minute, second and sub-second components each derived directly from the
millisecond count: the hours of `m`, the minutes within the hour, the seconds
within the minute, and the sub-second remainder, zero-padded to 2/2/2/3 digits. -/
def formatSrtTimeSpec (m : Nat) : String :=
  padStart (toString (m / 3600000)) 2 '0' ++ ":" ++
    padStart (toString (m / 60000 % 60)) 2 '0' ++ ":" ++
    padStart (toString (m / 1000 % 60)) 2 '0' ++ "," ++
    padStart (toString (m % 1000)) 3 '0'

/-! ## Append log writer (recording modules: `appendToFile` / `addToFile` / `addToFileQueue`) -/

/-- One pending write task of the file queue. -/
structure QueueFile where
  name : Str
  content : Str
deriving DecidableEq, Repr

/-- Model of the flush loop `appendToFile` with its helper `addToFile`:
while the queue is nonempty, the head task is written with an append-mode write;
a successful `fs.appendFile` is followed by `shift()` (the head is removed), a
failed one only logs, leaving the head in place so the loop retries it.
The outcomes of the successive append attempts are supplied by `attempts`;
the result is the list of successfully written tasks in write order together
with the queue remaining when no further attempt outcome is available. -/
def appendToFile : List Bool → List QueueFile → List QueueFile × List QueueFile
  | [], q => ([], q)
  | _ :: _, [] => ([], [])
  | ok :: rest, f :: q =>
    if ok then
      let out := appendToFile rest q
      (f :: out.1, out.2)
    else
      appendToFile rest (f :: q)

/-- Modelled from the spec: the recording module's `generateFileName(startDateTime, isExport)`
is not among the provided source files (only the older zero-argument version in
utilities.ts is); per the spec the session's log file identifier is derived
deterministically from the session start time. -/
def generateFileName (startDateTime : Int) (_isExport : Bool) : Option Str :=
  some (strL (toString startDateTime))

/-- `addToFileQueue` (src/unnamed/part_000): enqueues a pending write task unless the
content is falsy (`undefined` or the empty string), no session start time is set, or
no file name can be generated; the task's target file is the session file name with
the requested extension. -/
def addToFileQueue (content : Option Str) (fileExtension : Str) (isExport : Bool)
    (startDateTime : Option Int) (fileQueue : List QueueFile) : List QueueFile :=
  match content with
  | none => fileQueue
  | some c =>
    if c = [] then fileQueue
    else
      match startDateTime with
      | none => fileQueue
      | some st =>
        match generateFileName st isExport with
        | none => fileQueue
        | some fn =>
          if fn = [] then fileQueue
          else fileQueue ++ [⟨fn ++ '.' :: fileExtension, c⟩]

/-! ## Replay reconstruction (src/unnamed/part_000) -/

/-- Modelled from the spec: the `ChangeType` enumeration lives in types.ts, which is
not among the provided source files; the spec's §3 names the row kinds `TAB` and
`CONTENT`. -/
def ChangeType.TAB : Str := strL "TAB"

/-- Modelled from the spec: the `CONTENT` member of the `ChangeType` enumeration. -/
def ChangeType.CONTENT : Str := strL "CONTENT"

/-- A reconstructed change (the `Change` record of types.ts).  `startTime` and
`endTime` carry results of `Number.parseInt`, which may be `NaN`; `NaN` is
embedded as `none`. -/
structure Change where
  sequence : Nat
  file : Str
  startTime : Option Int
  endTime : Option Int
  language : Str
  text : Str
deriving DecidableEq, Repr

/-- JavaScript `===` on two possibly-`NaN` numbers: `NaN` compares unequal to
everything, itself included. -/
def jsNumEq : Option Int → Option Int → Bool
  | some a, some b => a == b
  | _, _ => false

/-- The `ToIntegerOrInfinity` coercion `Array.prototype.splice` applies to its
arguments: `NaN` becomes 0. -/
def jsIntOrZero : Option Int → Int
  | none => 0
  | some n => n

/-- Whitespace skipped by `Number.parseInt`. -/
def isJsSpace (c : Char) : Bool :=
  c = ' ' ∨ c = '\t' ∨ c = '\n' ∨ c = '\r' ∨ c = '\x0B' ∨ c = '\x0C'

/-- Numeric value of a digit run. -/
def digitsToNat (ds : Str) : Nat := ds.foldl (fun a c => 10 * a + (c.toNat - '0'.toNat)) 0

/-- Model of `Number.parseInt(s)` in radix 10: skip leading whitespace, read an
optional sign and then the longest leading digit run; no leading digits means
`NaN` (`none`); anything after the digit run is ignored. -/
def parseIntJs (s : Str) : Option Int :=
  match s.dropWhile isJsSpace with
  | '-' :: r =>
    if (r.takeWhile Char.isDigit).isEmpty then none
    else some (-(digitsToNat (r.takeWhile Char.isDigit) : Int))
  | '+' :: r =>
    if (r.takeWhile Char.isDigit).isEmpty then none
    else some ((digitsToNat (r.takeWhile Char.isDigit) : Int))
  | r =>
    if (r.takeWhile Char.isDigit).isEmpty then none
    else some ((digitsToNat (r.takeWhile Char.isDigit) : Int))

/-- The split `line.split(/,(?=(?:[^"]*"[^"]*")*[^"]*$)/)`: the lookahead accepts a
position exactly when the remainder of the line holds an even number of quote
characters, so the line is split at precisely those commas.  `cur` accumulates
the characters of the current field in reverse. -/
def splitCsvAux : Str → Str → List Str
  | [], cur => [cur.reverse]
  | ',' :: rest, cur =>
    if rest.count '"' % 2 = 0 then cur.reverse :: splitCsvAux rest []
    else splitCsvAux rest (',' :: cur)
  | c :: rest, cur => splitCsvAux rest (c :: cur)

/-- The field array `lineArr` of a row line. -/
def splitCsvLine (line : Str) : List Str := splitCsvAux line []

/-- Field access `lineArr[i]` (missing fields read as empty). -/
def csvField (line : Str) (i : Nat) : Str := (splitCsvLine line).getD i []

/-- `getUpdatedText` (part_000): `previousText.split('')` into a character array,
`splice(rangeOffset, rangeLength, newText)` — JavaScript `splice` coerces `NaN`
to 0, clamps a negative start up from the end, clamps the start to the array
length and the deletion count to what remains, and inserts `newText` as a single
element — then `join('')`. -/
def getUpdatedText (previousText : Str) (rangeOffset rangeLength : Option Int)
    (newText : Str) : Str :=
  let len : Int := previousText.length
  let o := jsIntOrZero rangeOffset
  let l := jsIntOrZero rangeLength
  let start := if o < 0 then max (len + o) 0 else min o len
  let del := min (max l 0) (len - start)
  previousText.take start.toNat ++ newText ++ previousText.drop (start + del).toNat

/-- `getNewTextContent` (part_000): a TAB row's text is the new full text verbatim;
a CONTENT row with no previous change yields the empty text; otherwise the
previous change's text is spliced. -/
def getNewTextContent (type : Str) (text : Str) (previousChange : Option Change)
    (rangeOffset rangeLength : Option Int) : Str :=
  if type = ChangeType.TAB then text
  else
    match previousChange with
    | none => []
    | some prev => getUpdatedText prev.text rangeOffset rangeLength text

/-- `processCSVLine` (part_000): split the line; skip it when the first field does
not parse as an integer; otherwise parse the fields, reconstruct the new full
text, drop the row when its `(time, file, newText, language)` tuple equals the
previous change's `(startTime, file, text, language)`, and otherwise build the
next change with the successor sequence number (1 when there is no previous
change) and a placeholder `endTime` of 0. -/
def processCSVLine (line : Str) (previousChange : Option Change) : Option Change :=
  match parseIntJs (csvField line 0) with
  | none => none
  | some _ =>
    let time := parseIntJs (csvField line 1)
    let file := removeDoubleQuotes (csvField line 2)
    let rangeOffset := parseIntJs (csvField line 3)
    let rangeLength := parseIntJs (csvField line 4)
    let text := unescapeString (removeDoubleQuotes (csvField line 5))
    let language := csvField line 6
    let type := csvField line 7
    let newText := getNewTextContent type text previousChange rangeOffset rangeLength
    match previousChange with
    | some prev =>
      if jsNumEq time prev.startTime = true ∧ file = prev.file ∧ newText = prev.text ∧
          language = prev.language then
        none
      else
        some ⟨prev.sequence + 1, file, time, some 0, language, newText⟩
    | none => some ⟨1, file, time, some 0, language, newText⟩

/-- The mutation `previousChange.endTime = change.startTime` performed on the last
element of the `processedChanges` array. -/
def setLastEnd (l : List Change) (t : Option Int) : List Change :=
  match l.getLast? with
  | none => l
  | some c => l.dropLast ++ [{ c with endTime := t }]

/-- One iteration of the `for await (const line of rl)` loop of `processCsvFile`
(part_000): the line is processed against the last reconstructed change; a
skipped or deduplicated line leaves the state unchanged, otherwise the previous
change is closed at the new change's start time and the new change is appended. -/
def stepChange (acc : List Change) (line : Str) : List Change :=
  match processCSVLine line acc.getLast? with
  | none => acc
  | some c => setLastEnd acc c.startTime ++ [c]

/-- The whole read loop of `processCsvFile` (part_000) over the row log's lines. -/
def processChanges (lines : List Str) : List Change :=
  lines.foldl stepChange []

/-- The closing step of `finalizeRecording` (part_000): the last change's
`endTime` becomes the session duration `endDateTime - startDateTime`. -/
def finalizeChanges (duration : Int) (processedChanges : List Change) : List Change :=
  setLastEnd processedChanges (some duration)

/-- An export task queued during replay, kept in structured form: one subtitle
block per closed change (`addToSRTFile`) or the one whole-array structured export
(`JSON.stringify(processedChanges)`).  The textual rendering is injective on
this data and none of the properties below depend on the rendered bytes. -/
inductive ExportItem where
  | srtBlock (c : Change)
  | jsonArray (cs : List Change)
deriving DecidableEq, Repr

/-- The observable outcome of `processCsvFile` (part_000): whether the row log was
read and the change sequence reconstructed, the reconstructed changes, the export
tasks queued, and the notifications issued with their severity tag. -/
structure ReplayOutcome where
  replayRan : Bool
  changes : List Change
  queued : List ExportItem
  notices : List (String × String)
deriving DecidableEq, Repr

/-- `processCsvFile` (part_000) together with `validateRecordingState` and
`finalizeRecording`: no workspace or unset session timestamps abort with an
error; an empty export-format list reports an informational notice and returns
before the row log is opened; an unresolved export path aborts silently;
otherwise the log's lines are replayed, the final change is closed at the
session duration, one subtitle block per change is queued when SRT is requested
(the loop queues every closed block, `finalizeRecording` the last one), and the
whole array is queued once when JSON is requested. -/
def processCsvFile (hasWorkspace : Bool) (startDateTime endDateTime : Option Int)
    (exportFormats : List String) (exportPath : Option String) (lines : List Str) :
    ReplayOutcome :=
  if hasWorkspace = false then
    ⟨false, [], [],
      [("No workspace folder found. To process the recording is needed a workspace folder",
        "error")]⟩
  else if endDateTime = none ∨ startDateTime = none then
    ⟨false, [], [], [("Recording date time is not properly set", "error")]⟩
  else if exportFormats.length = 0 then
    ⟨false, [], [], [("No export formats specified", "info")]⟩
  else
    match exportPath, startDateTime, endDateTime with
    | some _, some st, some et =>
      let final := finalizeChanges (et - st) (processChanges lines)
      ⟨true, final,
        (if exportFormats.contains "SRT" then final.map ExportItem.srtBlock else []) ++
          (if exportFormats.contains "JSON" then [ExportItem.jsonArray final] else []),
        []⟩
    | _, _, _ => ⟨false, [], [], []⟩

/-- The elapsed time a line contributes during replay: the parsed second field of
a line whose first field parses as an integer. -/
def rowTime (line : Str) : Option Int :=
  match parseIntJs (csvField line 0) with
  | none => none
  | some _ => parseIntJs (csvField line 1)

/-- The elapsed times of a log's valid rows, in log order. -/
def rowTimes (lines : List Str) : List Int := lines.filterMap rowTime

/-- Adjacent interval closure: every change except the last ends where its
successor starts. -/
def linked : List Change → Bool
  | [] => true
  | [_] => true
  | a :: b :: t => a.endTime == b.startTime && linked (b :: t)

/-- Start times are present and nondecreasing between adjacent changes. -/
def startLE (a b : Change) : Prop :=
  ∃ s₁ s₂, a.startTime = some s₁ ∧ b.startTime = some s₂ ∧ s₁ ≤ s₂

/-! ## Concrete log rows used to instantiate the claims -/

def demoTabLine : Str := strL "1,0,\"a.txt\",0,0,\"abc\",plaintext,TAB"

def demoDupLine : Str := strL "2,0,\"a.txt\",0,0,\"\",plaintext,CONTENT"

def demoOobLine : Str := strL "2,10,\"a.txt\",100,5,\"X\",plaintext,CONTENT"

def demoEditLine : Str := strL "3,20,\"a.txt\",0,1,\"Z\",plaintext,CONTENT"

def demoHelloLine : Str := strL "1,0,\"file.txt\",0,0,\"hello\",plaintext,TAB"

def demoWorldLine : Str := strL "2,100,\"file.txt\",5,0,\" world\",plaintext,CONTENT"

def demoTab2Line : Str := strL "2,100,\"a.txt\",0,0,\"xy\",plaintext,TAB"

def demoTab3Line : Str := strL "3,200,\"a.txt\",0,0,\"z\",plaintext,TAB"

def demoAbcChange : Change :=
  ⟨1, strL "a.txt", some 0, some 0, strL "plaintext", strL "abc"⟩

/-! ## Claim theorems: C7, C9, C10 -/

theorem appendToFile_partition (attempts : List Bool) (q : List QueueFile) :
    (appendToFile attempts q).1 ++ (appendToFile attempts q).2 = q := by
  induction attempts generalizing q with
  | nil => simp [appendToFile]
  | cons ok rest ih =>
    cases q with
    | nil => cases ok <;> simp [appendToFile]
    | cons f t =>
      cases ok with
      | false => simpa [appendToFile] using ih (f :: t)
      | true => simp [appendToFile, ih t]

/-- Claim C7: a queued task is removed only after its append write succeeds, flush
drains strictly in FIFO order, a failed write leaves the failing task at the head
with no later task written before it — so the successfully written tasks followed
by the remaining queue are exactly the original queue, per-target write order
equals enqueue order, and a failed head attempt leaves the queue state unchanged
for the next attempt. -/
theorem writeQueue_fifo_invariant :
    (∀ attempts q, (appendToFile attempts q).1 ++ (appendToFile attempts q).2 = q) ∧
    (∀ attempts q target,
      ((appendToFile attempts q).1.filter (fun f => f.name == target)) ++
        ((appendToFile attempts q).2.filter (fun f => f.name == target)) =
        q.filter (fun f => f.name == target)) ∧
    (∀ rest f q, appendToFile (false :: rest) (f :: q) = appendToFile rest (f :: q)) := by
  refine ⟨appendToFile_partition, ?_, ?_⟩
  · intro attempts q target
    rw [← List.filter_append, appendToFile_partition]
  · intro rest f q
    simp [appendToFile]

/-- Claim C9: `formatSrtTime` renders `HH:MM:SS,mmm`, with hours, minutes and
seconds those of the whole-second part of the count and the sub-second remainder
zero-padded to three digits; in particular `formatSrtTime 3661500 = "01:01:01,500"`. -/
theorem formatSrtTime_correct :
    (∀ m : Nat, formatSrtTime m = formatSrtTimeSpec m) ∧
    formatSrtTime 3661500 = "01:01:01,500" := by
  constructor
  · intro m
    have h1 : m / 1000 / 3600 = m / 3600000 := by omega
    have h2 : m / 1000 % 3600 / 60 = m / 60000 % 60 := by omega
    simp only [formatSrtTime, formatSrtTimeSpec]
    rw [h1, h2]
  · decide

/-- Claim C10: enqueuing falsy content (`undefined` or the empty string) leaves the
file queue unchanged, whatever the extension, export flag, session start state and
current queue are. -/
theorem addToFileQueue_empty_noop :
    ∀ (ext : Str) (isExport : Bool) (sdt : Option Int) (q : List QueueFile),
      addToFileQueue none ext isExport sdt q = q ∧
      addToFileQueue (some []) ext isExport sdt q = q := by
  intro ext isExport sdt q
  constructor <;> simp [addToFileQueue]

/-! ## Stepping lemmas for the escaping passes

Each global-replace pass is characterised by how it treats the first one or two
characters of its input; these are the building blocks of the round-trip proof. -/

theorem repQuoteDouble_quote (x : Str) :
    repQuoteDouble ('"' :: x) = '"' :: '"' :: repQuoteDouble x := by
  simp [repQuoteDouble]

theorem repQuoteDouble_step {c : Char} (x : Str) (h : c ≠ '"') :
    repQuoteDouble (c :: x) = c :: repQuoteDouble x := by
  simp [repQuoteDouble, h]

theorem repQuoteDouble_head (x : Str) : (repQuoteDouble x).head? = x.head? := by
  cases x with
  | nil => simp [repQuoteDouble]
  | cons c t => by_cases h : c = '"' <;> simp [repQuoteDouble, h]

theorem repCrlfEnc_pair (x : Str) :
    repCrlfEnc ('\r' :: '\n' :: x) = '\\' :: 'r' :: '\\' :: 'n' :: repCrlfEnc x := by
  simp [repCrlfEnc]

theorem repCrlfEnc_step {c : Char} (x : Str) (h : c ≠ '\r') :
    repCrlfEnc (c :: x) = c :: repCrlfEnc x := by
  cases x with
  | nil => simp [repCrlfEnc]
  | cons b t => simp [repCrlfEnc, h]

theorem repCrlfEnc_lone (x : Str) (h : x.head? ≠ some '\n') :
    repCrlfEnc ('\r' :: x) = '\r' :: repCrlfEnc x := by
  cases x with
  | nil => simp [repCrlfEnc]
  | cons b t =>
    have hb : b ≠ '\n' := by simpa using h
    simp [repCrlfEnc, hb]

theorem repLfEnc_lf (x : Str) : repLfEnc ('\n' :: x) = '\\' :: 'n' :: repLfEnc x := by
  simp [repLfEnc]

theorem repLfEnc_step {c : Char} (x : Str) (h : c ≠ '\n') :
    repLfEnc (c :: x) = c :: repLfEnc x := by
  simp [repLfEnc, h]

theorem repCrEnc_cr (x : Str) : repCrEnc ('\r' :: x) = '\\' :: 'r' :: repCrEnc x := by
  simp [repCrEnc]

theorem repCrEnc_step {c : Char} (x : Str) (h : c ≠ '\r') :
    repCrEnc (c :: x) = c :: repCrEnc x := by
  simp [repCrEnc, h]

theorem repTabEnc_tab (x : Str) : repTabEnc ('\t' :: x) = '\\' :: 't' :: repTabEnc x := by
  simp [repTabEnc]

theorem repTabEnc_step {c : Char} (x : Str) (h : c ≠ '\t') :
    repTabEnc (c :: x) = c :: repTabEnc x := by
  simp [repTabEnc, h]

theorem unrepQuote_pair (x : Str) : unrepQuote ('"' :: '"' :: x) = '"' :: unrepQuote x := by
  simp [unrepQuote]

theorem unrepQuote_step {c : Char} (x : Str) (h : c ≠ '"') :
    unrepQuote (c :: x) = c :: unrepQuote x := by
  cases x with
  | nil => simp [unrepQuote]
  | cons b t => simp [unrepQuote, h]

theorem unrepQuote_head (x : Str) : (unrepQuote x).head? = x.head? := by
  rcases x with _ | ⟨c, _ | ⟨b, t⟩⟩
  · simp [unrepQuote]
  · simp [unrepQuote]
  · by_cases h : c = '"' ∧ b = '"' <;> simp [unrepQuote, h]

theorem unrepCrlf_match (x : Str) :
    unrepCrlf ('\\' :: 'r' :: '\\' :: 'n' :: x) = '\r' :: '\n' :: unrepCrlf x := by
  simp [unrepCrlf]

theorem unrepCrlf_step {c : Char} (x : Str) (h : c ≠ '\\') :
    unrepCrlf (c :: x) = c :: unrepCrlf x := by
  rcases x with _ | ⟨b, _ | ⟨d, _ | ⟨e, t⟩⟩⟩ <;> simp [unrepCrlf, h]

theorem unrepCrlf_bs (x : Str) (h : x.head? ≠ some 'r') :
    unrepCrlf ('\\' :: x) = '\\' :: unrepCrlf x := by
  rcases x with _ | ⟨b, _ | ⟨d, _ | ⟨e, t⟩⟩⟩
  · simp [unrepCrlf]
  · simp [unrepCrlf]
  · simp [unrepCrlf]
  · have hb : b ≠ 'r' := by simpa using h
    simp [unrepCrlf, hb]

theorem unrepCrlf_bsr (x : Str) (h : ¬ (x.head? = some '\\' ∧ x.tail.head? = some 'n')) :
    unrepCrlf ('\\' :: 'r' :: x) = '\\' :: 'r' :: unrepCrlf x := by
  rcases x with _ | ⟨b, _ | ⟨d, t⟩⟩
  · simp [unrepCrlf]
  · simp [unrepCrlf]
  · have hbd : ¬ (b = '\\' ∧ d = 'n') := by simpa using h
    have hr : ('r' : Char) ≠ '\\' := by decide
    calc unrepCrlf ('\\' :: 'r' :: b :: d :: t)
        = '\\' :: unrepCrlf ('r' :: b :: d :: t) := by
          simp only [unrepCrlf]
          rw [if_neg]
          intro hx
          exact hbd ⟨hx.2.2.1, hx.2.2.2⟩
      _ = '\\' :: 'r' :: unrepCrlf (b :: d :: t) := by rw [unrepCrlf_step _ hr]

theorem unrepLf_match (x : Str) : unrepLf ('\\' :: 'n' :: x) = '\n' :: unrepLf x := by
  simp [unrepLf]

theorem unrepLf_step {c : Char} (x : Str) (h : c ≠ '\\') :
    unrepLf (c :: x) = c :: unrepLf x := by
  cases x with
  | nil => simp [unrepLf]
  | cons b t => simp [unrepLf, h]

theorem unrepLf_bs (x : Str) (h : x.head? ≠ some 'n') :
    unrepLf ('\\' :: x) = '\\' :: unrepLf x := by
  cases x with
  | nil => simp [unrepLf]
  | cons b t =>
    have hb : b ≠ 'n' := by simpa using h
    simp [unrepLf, hb]

theorem unrepCr_match (x : Str) : unrepCr ('\\' :: 'r' :: x) = '\r' :: unrepCr x := by
  simp [unrepCr]

theorem unrepCr_step {c : Char} (x : Str) (h : c ≠ '\\') :
    unrepCr (c :: x) = c :: unrepCr x := by
  cases x with
  | nil => simp [unrepCr]
  | cons b t => simp [unrepCr, h]

theorem unrepCr_bs (x : Str) (h : x.head? ≠ some 'r') :
    unrepCr ('\\' :: x) = '\\' :: unrepCr x := by
  cases x with
  | nil => simp [unrepCr]
  | cons b t =>
    have hb : b ≠ 'r' := by simpa using h
    simp [unrepCr, hb]

theorem unrepTab_match (x : Str) : unrepTab ('\\' :: 't' :: x) = '\t' :: unrepTab x := by
  simp [unrepTab]

theorem unrepTab_step {c : Char} (x : Str) (h : c ≠ '\\') :
    unrepTab (c :: x) = c :: unrepTab x := by
  cases x with
  | nil => simp [unrepTab]
  | cons b t => simp [unrepTab, h]

theorem unrepTab_bs (x : Str) (h : x.head? ≠ some 't') :
    unrepTab ('\\' :: x) = '\\' :: unrepTab x := by
  cases x with
  | nil => simp [unrepTab]
  | cons b t =>
    have hb : b ≠ 't' := by simpa using h
    simp [unrepTab, hb]

/-! ## How `escapeString` and `unescapeString` act on the leading characters -/

theorem escapeString_crlf (t : Str) :
    escapeString ('\r' :: '\n' :: t) = '\\' :: 'r' :: '\\' :: 'n' :: escapeString t := by
  unfold escapeString
  rw [repQuoteDouble_step _ (by decide), repQuoteDouble_step _ (by decide), repCrlfEnc_pair,
    repLfEnc_step _ (by decide), repLfEnc_step _ (by decide), repLfEnc_step _ (by decide),
    repLfEnc_step _ (by decide),
    repCrEnc_step _ (by decide), repCrEnc_step _ (by decide), repCrEnc_step _ (by decide),
    repCrEnc_step _ (by decide),
    repTabEnc_step _ (by decide), repTabEnc_step _ (by decide), repTabEnc_step _ (by decide),
    repTabEnc_step _ (by decide)]

theorem escapeString_cr_lone (t : Str) (h : t.head? ≠ some '\n') :
    escapeString ('\r' :: t) = '\\' :: 'r' :: escapeString t := by
  unfold escapeString
  have h1 : (repQuoteDouble t).head? ≠ some '\n' := by rw [repQuoteDouble_head]; exact h
  rw [repQuoteDouble_step _ (by decide), repCrlfEnc_lone _ h1,
    repLfEnc_step _ (by decide), repCrEnc_cr,
    repTabEnc_step _ (by decide), repTabEnc_step _ (by decide)]

theorem escapeString_lf (t : Str) :
    escapeString ('\n' :: t) = '\\' :: 'n' :: escapeString t := by
  unfold escapeString
  rw [repQuoteDouble_step _ (by decide), repCrlfEnc_step _ (by decide), repLfEnc_lf,
    repCrEnc_step _ (by decide), repCrEnc_step _ (by decide),
    repTabEnc_step _ (by decide), repTabEnc_step _ (by decide)]

theorem escapeString_tab (t : Str) :
    escapeString ('\t' :: t) = '\\' :: 't' :: escapeString t := by
  unfold escapeString
  rw [repQuoteDouble_step _ (by decide), repCrlfEnc_step _ (by decide),
    repLfEnc_step _ (by decide), repCrEnc_step _ (by decide), repTabEnc_tab]

theorem escapeString_quote (t : Str) :
    escapeString ('"' :: t) = '"' :: '"' :: escapeString t := by
  unfold escapeString
  rw [repQuoteDouble_quote, repCrlfEnc_step _ (by decide), repCrlfEnc_step _ (by decide),
    repLfEnc_step _ (by decide), repLfEnc_step _ (by decide),
    repCrEnc_step _ (by decide), repCrEnc_step _ (by decide),
    repTabEnc_step _ (by decide), repTabEnc_step _ (by decide)]

theorem escapeString_other {c : Char} (t : Str) (hq : c ≠ '"') (hr : c ≠ '\r')
    (hn : c ≠ '\n') (ht : c ≠ '\t') :
    escapeString (c :: t) = c :: escapeString t := by
  unfold escapeString
  rw [repQuoteDouble_step _ hq, repCrlfEnc_step _ hr, repLfEnc_step _ hn,
    repCrEnc_step _ hr, repTabEnc_step _ ht]

theorem unescapeString_bsrbsn (x : Str) :
    unescapeString ('\\' :: 'r' :: '\\' :: 'n' :: x) = '\r' :: '\n' :: unescapeString x := by
  unfold unescapeString
  rw [unrepQuote_step _ (by decide), unrepQuote_step _ (by decide),
    unrepQuote_step _ (by decide), unrepQuote_step _ (by decide),
    unrepCrlf_match,
    unrepLf_step _ (by decide), unrepLf_step _ (by decide),
    unrepCr_step _ (by decide), unrepCr_step _ (by decide),
    unrepTab_step _ (by decide), unrepTab_step _ (by decide)]

theorem unescapeString_bsr_lone (x : Str)
    (h : ¬ (x.head? = some '\\' ∧ x.tail.head? = some 'n')) :
    unescapeString ('\\' :: 'r' :: x) = '\r' :: unescapeString x := by
  unfold unescapeString
  have h1 : ¬ ((unrepQuote x).head? = some '\\' ∧ (unrepQuote x).tail.head? = some 'n') := by
    intro ⟨ha, hb⟩
    rw [unrepQuote_head] at ha
    rcases x with _ | ⟨c, t⟩
    · simp at ha
    · have hc : c = '\\' := by simpa using ha
      subst hc
      rw [unrepQuote_step _ (by decide)] at hb
      simp only [List.tail_cons] at hb
      rw [unrepQuote_head] at hb
      exact h ⟨ha, by simpa using hb⟩
  rw [unrepQuote_step _ (by decide), unrepQuote_step _ (by decide),
    unrepCrlf_bsr _ h1]
  have h2 : ('r' :: unrepCrlf (unrepQuote x)).head? ≠ some 'n' := by simp
  rw [unrepLf_bs _ h2, unrepLf_step _ (by decide), unrepCr_match,
    unrepTab_step _ (by decide)]

theorem unescapeString_bsn (x : Str) :
    unescapeString ('\\' :: 'n' :: x) = '\n' :: unescapeString x := by
  unfold unescapeString
  have h1 : ('n' :: unrepQuote x).head? ≠ some 'r' := by simp
  rw [unrepQuote_step _ (by decide), unrepQuote_step _ (by decide),
    unrepCrlf_bs _ h1, unrepCrlf_step _ (by decide), unrepLf_match,
    unrepCr_step _ (by decide), unrepTab_step _ (by decide)]

theorem unescapeString_bst (x : Str) :
    unescapeString ('\\' :: 't' :: x) = '\t' :: unescapeString x := by
  unfold unescapeString
  have h1 : ('t' :: unrepQuote x).head? ≠ some 'r' := by simp
  have h2 : ('t' :: unrepCrlf (unrepQuote x)).head? ≠ some 'n' := by simp
  have h3 : ('t' :: unrepLf (unrepCrlf (unrepQuote x))).head? ≠ some 'r' := by simp
  rw [unrepQuote_step _ (by decide), unrepQuote_step _ (by decide),
    unrepCrlf_bs _ h1, unrepCrlf_step _ (by decide),
    unrepLf_bs _ h2, unrepLf_step _ (by decide),
    unrepCr_bs _ h3, unrepCr_step _ (by decide), unrepTab_match]

theorem unescapeString_qq (x : Str) :
    unescapeString ('"' :: '"' :: x) = '"' :: unescapeString x := by
  unfold unescapeString
  rw [unrepQuote_pair, unrepCrlf_step _ (by decide), unrepLf_step _ (by decide),
    unrepCr_step _ (by decide), unrepTab_step _ (by decide)]

theorem unescapeString_other {c : Char} (x : Str) (hq : c ≠ '"') (hb : c ≠ '\\') :
    unescapeString (c :: x) = c :: unescapeString x := by
  unfold unescapeString
  rw [unrepQuote_step _ hq, unrepCrlf_step _ hb, unrepLf_step _ hb,
    unrepCr_step _ hb, unrepTab_step _ hb]

/-! ## The escaping round trip (claim C1) -/

theorem escapeString_no_bsn (t : Str) (hb : '\\' ∉ t) (hn : t.head? ≠ some '\n') :
    ¬ ((escapeString t).head? = some '\\' ∧ (escapeString t).tail.head? = some 'n') := by
  rcases t with _ | ⟨c, t'⟩
  · intro h
    simp [escapeString, repQuoteDouble, repCrlfEnc, repLfEnc, repCrEnc, repTabEnc] at h
  · have hcn : c ≠ '\n' := by simpa using hn
    have hcb : c ≠ '\\' := fun e => hb (by simp [e])
    by_cases hq : c = '"'
    · subst hq; rw [escapeString_quote]; simp
    by_cases hr : c = '\r'
    · subst hr
      rcases t' with _ | ⟨c2, t''⟩
      · rw [escapeString_cr_lone _ (by simp)]; simp
      · by_cases h2 : c2 = '\n'
        · subst h2; rw [escapeString_crlf]; simp
        · rw [escapeString_cr_lone _ (by simpa using h2)]; simp
    by_cases ht : c = '\t'
    · subst ht; rw [escapeString_tab]; simp
    · rw [escapeString_other _ hq hr hcn ht]; simp [hcb]

theorem roundtrip_core :
    ∀ (n : Nat) (s : Str), s.length ≤ n → '\\' ∉ s →
      unescapeString (escapeString s) = s := by
  intro n
  induction n with
  | zero =>
    intro s hlen _
    have hnil : s = [] := List.eq_nil_of_length_eq_zero (Nat.le_zero.mp hlen)
    subst hnil; rfl
  | succ n ih =>
    intro s hlen hb
    rcases s with _ | ⟨c, t⟩
    · rfl
    have hcb : c ≠ '\\' := fun e => hb (by simp [e])
    have htb : '\\' ∉ t := fun m => hb (List.mem_cons_of_mem _ m)
    have hlt : t.length ≤ n := by simp at hlen; omega
    by_cases hq : c = '"'
    · subst hq
      rw [escapeString_quote, unescapeString_qq, ih t hlt htb]
    by_cases hr : c = '\r'
    · subst hr
      by_cases h2 : t.head? = some '\n'
      · rcases t with _ | ⟨c2, t''⟩
        · simp at h2
        · have hc2 : c2 = '\n' := by simpa using h2
          subst hc2
          have ht'' : '\\' ∉ t'' := fun m => htb (List.mem_cons_of_mem _ m)
          rw [escapeString_crlf, unescapeString_bsrbsn, ih t'' (by simp at hlen; omega) ht'']
      · rw [escapeString_cr_lone _ h2,
          unescapeString_bsr_lone _ (escapeString_no_bsn t htb h2), ih t hlt htb]
    by_cases hn : c = '\n'
    · subst hn
      rw [escapeString_lf, unescapeString_bsn, ih t hlt htb]
    by_cases hT : c = '\t'
    · subst hT
      rw [escapeString_tab, unescapeString_bst, ih t hlt htb]
    · rw [escapeString_other t hq hr hn hT, unescapeString_other _ hq hcb, ih t hlt htb]

theorem escapeString_all_dot :
    ∀ (n : Nat) (s : Str), s.length ≤ n → ' ' ∉ s → ' ' ∉ s →
      (escapeString s).all isRegexDot = true := by
  intro n
  induction n with
  | zero =>
    intro s hlen _ _
    have hnil : s = [] := List.eq_nil_of_length_eq_zero (Nat.le_zero.mp hlen)
    subst hnil; rfl
  | succ n ih =>
    intro s hlen h28 h29
    rcases s with _ | ⟨c, t⟩
    · rfl
    have hc28 : c ≠ ' ' := fun e => h28 (by simp [e])
    have hc29 : c ≠ ' ' := fun e => h29 (by simp [e])
    have ht28 : ' ' ∉ t := fun m => h28 (List.mem_cons_of_mem _ m)
    have ht29 : ' ' ∉ t := fun m => h29 (List.mem_cons_of_mem _ m)
    have hlt : t.length ≤ n := by simp at hlen; omega
    have iht := ih t hlt ht28 ht29
    by_cases hq : c = '"'
    · subst hq; rw [escapeString_quote]; simp [isRegexDot, iht]
    by_cases hr : c = '\r'
    · subst hr
      by_cases h2 : t.head? = some '\n'
      · rcases t with _ | ⟨c2, t''⟩
        · simp at h2
        · have hc2 : c2 = '\n' := by simpa using h2
          subst hc2
          have i28 : ' ' ∉ t'' := fun m => ht28 (List.mem_cons_of_mem _ m)
          have i29 : ' ' ∉ t'' := fun m => ht29 (List.mem_cons_of_mem _ m)
          rw [escapeString_crlf]
          simp [isRegexDot, ih t'' (by simp at hlen; omega) i28 i29]
      · rw [escapeString_cr_lone _ h2]; simp [isRegexDot, iht]
    by_cases hn : c = '\n'
    · subst hn; rw [escapeString_lf]; simp [isRegexDot, iht]
    by_cases hT : c = '\t'
    · subst hT; rw [escapeString_tab]; simp [isRegexDot, iht]
    · rw [escapeString_other t hq hr hn hT]
      simp only [List.all_cons, iht, Bool.and_true]
      simp [isRegexDot, hr, hn, hc28, hc29]

theorem removeDoubleQuotes_wrap (x : Str) (h : x.all isRegexDot = true) :
    removeDoubleQuotes ('"' :: x ++ ['"']) = x := by
  unfold removeDoubleQuotes
  rw [if_pos]
  · simp [List.dropLast_concat]
  · exact ⟨by simp, by simp, List.getLast?_concat _, by simp [List.dropLast_concat, h]⟩

/-- Claim C1 counterexample: the escaping round trip is not the identity on all
strings.  A text consisting of a literal backslash followed by `n` is left
unchanged by `escapeString` but turned into a newline by `unescapeString`; a
text consisting of the sole character U+2028 keeps its wrapping quotes because
the anchored `removeDoubleQuotes` regex cannot match across a line terminator. -/
theorem escape_roundtrip_cex :
    decodeTextField (encodeTextField (strL "\\n")) ≠ strL "\\n" ∧
    decodeTextField (encodeTextField [' ']) ≠ [' '] := by decide

/-- Claim C1 (amended): decoding the encoded text field is the identity on every
string containing no backslash and no U+2028/U+2029 line separator — in
particular on strings with double quotes, tabs, and any newline variant
(`\n`, `\r`, `\r\n`). -/
theorem escape_roundtrip (s : Str)
    (hb : '\\' ∉ s) (h28 : ' ' ∉ s) (h29 : ' ' ∉ s) :
    decodeTextField (encodeTextField s) = s := by
  unfold decodeTextField encodeTextField
  rw [removeDoubleQuotes_wrap _ (escapeString_all_dot s.length s le_rfl h28 h29),
    roundtrip_core s.length s le_rfl hb]

/-- Witness for C1's amended round-trip theorem on a concrete string containing
a double quote, a tab and a CRLF newline. -/
theorem escape_roundtrip_witness :
    ('\\' ∉ strL "a\"b\tc\r\nd" ∧ ' ' ∉ strL "a\"b\tc\r\nd" ∧
      ' ' ∉ strL "a\"b\tc\r\nd") ∧
    decodeTextField (encodeTextField (strL "a\"b\tc\r\nd")) = strL "a\"b\tc\r\nd" :=
  ⟨⟨by decide, by decide, by decide⟩, escape_roundtrip _ (by decide) (by decide) (by decide)⟩

/-! ## Replay claims: C2 (splice), C3 (deduplication), C5 (clamping), C6 (no formats) -/

/-- Claim C2: for a previous reconstructed text and a valid CONTENT row whose
range lies within bounds, the new full text is the previous text with the range
`[rangeOffset, rangeOffset+rangeLength)` replaced by the row's text; and a TAB
row `"hello"` followed by a CONTENT row `{rangeOffset:5, rangeLength:0,
text:" world"}` reconstructs `"hello world"`. -/
theorem content_splice_correct :
    (∀ (prev : Change) (o l : Nat) (t ty : Str), ty ≠ ChangeType.TAB →
      o + l ≤ prev.text.length →
      getNewTextContent ty t (some prev) (some (o : Int)) (some (l : Int)) =
        prev.text.take o ++ t ++ prev.text.drop (o + l)) ∧
    (processChanges [demoHelloLine, demoWorldLine]).map Change.text =
      [strL "hello", strL "hello world"] := by
  constructor
  · intro prev o l t ty hty hle
    simp only [getNewTextContent, if_neg hty]
    simp only [getUpdatedText, jsIntOrZero]
    have h0 : ¬ ((o : Int) < 0) := by omega
    rw [if_neg h0]
    have h2 : (min (o : Int) (prev.text.length : Int) +
        min (max (l : Int) 0) ((prev.text.length : Int) -
          min (o : Int) (prev.text.length : Int))).toNat = o + l := by omega
    have h1 : (min (o : Int) (prev.text.length : Int)).toNat = o := by omega
    rw [h2, h1]
  · decide

/-- Witness for C2's general splice theorem at the claim's own example. -/
theorem content_splice_correct_witness :
    ((strL "CONTENT" ≠ ChangeType.TAB) ∧ 5 + 0 ≤ (strL "hello").length) ∧
    getNewTextContent (strL "CONTENT") (strL " world")
        (some ⟨1, strL "file.txt", some 0, some 0, strL "plaintext", strL "hello"⟩)
        (some ((5 : Nat) : Int)) (some ((0 : Nat) : Int)) =
      (strL "hello").take 5 ++ strL " world" ++ (strL "hello").drop (5 + 0) :=
  ⟨⟨by decide, by decide⟩,
   content_splice_correct.1 ⟨1, strL "file.txt", some 0, some 0, strL "plaintext", strL "hello"⟩
     5 0 (strL " world") (strL "CONTENT") (by decide) (by decide)⟩

/-- Claim C3: a valid row whose `(elapsedMillis, filePath, reconstructed text,
languageId)` tuple equals the previous change's `(startTime, file, text,
language)` is dropped — `processCSVLine` returns nothing — and the two-row log
`[TAB "abc" @0ms, CONTENT replace-nothing @0ms]` yields exactly one change. -/
theorem dedup_collapses :
    (∀ (line : Str) (prev : Change) (k : Int),
      parseIntJs (csvField line 0) = some k →
      jsNumEq (parseIntJs (csvField line 1)) prev.startTime = true →
      removeDoubleQuotes (csvField line 2) = prev.file →
      getNewTextContent (csvField line 7)
        (unescapeString (removeDoubleQuotes (csvField line 5))) (some prev)
        (parseIntJs (csvField line 3)) (parseIntJs (csvField line 4)) = prev.text →
      csvField line 6 = prev.language →
      processCSVLine line (some prev) = none) ∧
    (processChanges [demoTabLine, demoDupLine]).length = 1 := by
  constructor
  · intro line prev k hk ht hf hn hl
    simp only [processCSVLine, hk]
    rw [if_pos ⟨ht, hf, hn, hl⟩]
  · decide

/-- Witness for C3's deduplication theorem at the claim's own two-row example. -/
theorem dedup_collapses_witness :
    (parseIntJs (csvField demoDupLine 0) = some 2 ∧
      jsNumEq (parseIntJs (csvField demoDupLine 1)) demoAbcChange.startTime = true ∧
      removeDoubleQuotes (csvField demoDupLine 2) = demoAbcChange.file ∧
      getNewTextContent (csvField demoDupLine 7)
        (unescapeString (removeDoubleQuotes (csvField demoDupLine 5))) (some demoAbcChange)
        (parseIntJs (csvField demoDupLine 3)) (parseIntJs (csvField demoDupLine 4)) =
        demoAbcChange.text ∧
      csvField demoDupLine 6 = demoAbcChange.language) ∧
    processCSVLine demoDupLine (some demoAbcChange) = none :=
  ⟨⟨by decide, by decide, by decide, by decide, by decide⟩,
   dedup_collapses.1 demoDupLine demoAbcChange 2 (by decide) (by decide) (by decide)
     (by decide) (by decide)⟩

/-- Claim C5: a CONTENT row whose range exceeds the previous text's bounds does
not abort replay — the splice is performed with the range clamped to the valid
bounds (start clamped to the length, deletion count to what remains), the loop
steps on to the remaining rows unchanged, and a log with an out-of-bounds row
still processes all subsequent rows. -/
theorem content_splice_clamped :
    (∀ (prev : Change) (o l : Nat) (t : Str),
      prev.text.length < o + l →
      getUpdatedText prev.text (some (o : Int)) (some (l : Int)) t =
        prev.text.take (min o prev.text.length) ++ t ++
          prev.text.drop (min o prev.text.length +
            min l (prev.text.length - min o prev.text.length))) ∧
    (∀ (acc : List Change) (line : Str) (rest : List Str),
      (line :: rest).foldl stepChange acc = rest.foldl stepChange (stepChange acc line)) ∧
    (processChanges [demoTabLine, demoOobLine, demoEditLine]).map Change.text =
      [strL "abc", strL "abcX", strL "ZbcX"] := by
  refine ⟨?_, fun _ _ _ => rfl, by decide⟩
  intro prev o l t _
  simp only [getUpdatedText, jsIntOrZero]
  have h0 : ¬ ((o : Int) < 0) := by omega
  rw [if_neg h0]
  have h2 : (min (o : Int) (prev.text.length : Int) +
      min (max (l : Int) 0) ((prev.text.length : Int) -
        min (o : Int) (prev.text.length : Int))).toNat =
      min o prev.text.length + min l (prev.text.length - min o prev.text.length) := by omega
  have h1 : (min (o : Int) (prev.text.length : Int)).toNat = min o prev.text.length := by omega
  rw [h2, h1]

/-- Witness for C5's clamped-splice theorem: an offset of 100 into the 3-character
text `"abc"` is clamped to its end. -/
theorem content_splice_clamped_witness :
    demoAbcChange.text.length < 100 + 5 ∧
    getUpdatedText demoAbcChange.text (some ((100 : Nat) : Int)) (some ((5 : Nat) : Int))
        (strL "X") =
      demoAbcChange.text.take (min 100 demoAbcChange.text.length) ++ strL "X" ++
        demoAbcChange.text.drop (min 100 demoAbcChange.text.length +
          min 5 (demoAbcChange.text.length - min 100 demoAbcChange.text.length)) :=
  ⟨by decide, content_splice_clamped.1 demoAbcChange 100 5 (strL "X") (by decide)⟩

/-- Claim C6 counterexample: with an empty export-format set, `processCsvFile`
returns before the row log is read — replay does not run and no change sequence
is reconstructed, even for a log whose replay would produce changes — so the
claim that replay still runs is false; only the no-export-file and
informational-report parts hold. -/
theorem noExportFormats_cex :
    (processCsvFile true (some 0) (some 5000) [] (some "p") [demoHelloLine]).replayRan = false ∧
    (processCsvFile true (some 0) (some 5000) [] (some "p") [demoHelloLine]).changes = [] ∧
    finalizeChanges 5000 (processChanges [demoHelloLine]) ≠ [] := by decide

/-- Claim C6 (amended): when the set of requested export formats is empty,
`processCsvFile` reports "No export formats specified" as an informational
(non-error) condition and returns early: the row log is not read, no change
sequence is reconstructed, and no export task is queued. -/
theorem noExportFormats_info (st et : Int) (path : Option String) (lines : List Str) :
    processCsvFile true (some st) (some et) [] path lines =
      ⟨false, [], [], [("No export formats specified", "info")]⟩ := rfl

/-! ## Closing of change intervals (claim C4) -/

theorem list_nil_or_last {α : Type} (l : List α) : l = [] ∨ ∃ xs c, l = xs ++ [c] := by
  rcases List.eq_nil_or_concat l with h | ⟨xs, c, h⟩
  · exact Or.inl h
  · exact Or.inr ⟨xs, c, by simpa using h⟩

theorem setLastEnd_concat (xs : List Change) (c : Change) (t : Option Int) :
    setLastEnd (xs ++ [c]) t = xs ++ [{ c with endTime := t }] := by
  unfold setLastEnd
  rw [List.getLast?_concat, List.dropLast_concat]

theorem setLastEnd_getLast? (l : List Change) (t : Option Int) :
    (setLastEnd l t).getLast? = l.getLast?.map (fun c => { c with endTime := t }) := by
  rcases list_nil_or_last l with rfl | ⟨xs, c, rfl⟩
  · rfl
  · rw [setLastEnd_concat, List.getLast?_concat, List.getLast?_concat]; rfl

theorem setLastEnd_map_startTime (l : List Change) (t : Option Int) :
    (setLastEnd l t).map Change.startTime = l.map Change.startTime := by
  rcases list_nil_or_last l with rfl | ⟨xs, c, rfl⟩
  · rfl
  · rw [setLastEnd_concat]; simp

theorem setLastEnd_map_sequence (l : List Change) (t : Option Int) :
    (setLastEnd l t).map Change.sequence = l.map Change.sequence := by
  rcases list_nil_or_last l with rfl | ⟨xs, c, rfl⟩
  · rfl
  · rw [setLastEnd_concat]; simp

theorem linked_cons_cons (a b : Change) (t : List Change) :
    linked (a :: b :: t) = (a.endTime == b.startTime && linked (b :: t)) := rfl

theorem linked_concat_congr (xs : List Change) (c c' : Change)
    (hst : c'.startTime = c.startTime) (h : linked (xs ++ [c]) = true) :
    linked (xs ++ [c']) = true := by
  induction xs with
  | nil => simp [linked]
  | cons a xs ih =>
    cases xs with
    | nil =>
      simp only [List.nil_append, List.cons_append, linked_cons_cons, Bool.and_eq_true,
        beq_iff_eq] at h ⊢
      exact ⟨hst ▸ h.1, by simp [linked]⟩
    | cons b t =>
      simp only [List.cons_append, linked_cons_cons, Bool.and_eq_true] at h ⊢
      exact ⟨h.1, ih h.2⟩

theorem linked_concat (xs : List Change) (c : Change) (h : linked xs = true)
    (hl : ∀ b, xs.getLast? = some b → b.endTime = c.startTime) :
    linked (xs ++ [c]) = true := by
  induction xs with
  | nil => simp [linked]
  | cons a xs ih =>
    cases xs with
    | nil =>
      have ha := hl a rfl
      simp [linked, ha]
    | cons b t =>
      simp only [List.cons_append, linked_cons_cons, Bool.and_eq_true] at h ⊢
      exact ⟨h.1, ih h.2 (fun b' hb' => hl b' (by rw [List.getLast?_cons_cons]; exact hb'))⟩

theorem linked_setLastEnd (l : List Change) (t : Option Int) (h : linked l = true) :
    linked (setLastEnd l t) = true := by
  rcases list_nil_or_last l with rfl | ⟨xs, c, rfl⟩
  · exact h
  · rw [setLastEnd_concat]
    exact linked_concat_congr xs c _ rfl h

theorem stepChange_linked (acc : List Change) (line : Str) (h : linked acc = true) :
    linked (stepChange acc line) = true := by
  unfold stepChange
  cases hp : processCSVLine line acc.getLast? with
  | none => exact h
  | some c =>
    apply linked_concat _ _ (linked_setLastEnd acc _ h)
    intro b hb
    rw [setLastEnd_getLast?] at hb
    cases hg : acc.getLast? with
    | none => rw [hg] at hb; simp at hb
    | some p =>
      rw [hg, Option.map_some'] at hb
      rw [← Option.some.inj hb]

theorem processChanges_linked (lines : List Str) : ∀ acc, linked acc = true →
    linked (lines.foldl stepChange acc) = true := by
  induction lines with
  | nil => intro acc h; exact h
  | cons l rest ih => intro acc h; exact ih _ (stepChange_linked acc l h)

/-- Claim C4: in every replayed log every change except the last ends exactly
where its successor starts, the final change ends at the session duration, and
on the claim's example (three distinct changes, a 5000ms session) the closed
intervals are `[0,100) [100,200) [200,5000)`. -/
theorem interval_closure :
    (∀ (lines : List Str) (duration : Int),
      linked (finalizeChanges duration (processChanges lines)) = true ∧
      ∀ c, (finalizeChanges duration (processChanges lines)).getLast? = some c →
        c.endTime = some duration) ∧
    ((finalizeChanges 5000 (processChanges [demoTabLine, demoTab2Line, demoTab3Line])).map
        Change.startTime = [some 0, some 100, some 200] ∧
      (finalizeChanges 5000 (processChanges [demoTabLine, demoTab2Line, demoTab3Line])).map
        Change.endTime = [some 100, some 200, some 5000]) := by
  constructor
  · intro lines duration
    constructor
    · exact linked_setLastEnd _ _ (processChanges_linked lines [] rfl)
    · intro c hc
      unfold finalizeChanges at hc
      rw [setLastEnd_getLast?] at hc
      cases hg : (processChanges lines).getLast? with
      | none => rw [hg] at hc; simp at hc
      | some p =>
        rw [hg, Option.map_some'] at hc
        rw [← Option.some.inj hc]
  · exact ⟨by decide, by decide⟩

/-- Witness for C4's closure theorem on the claim's three-change example. -/
theorem interval_closure_witness :
    ((finalizeChanges 5000 (processChanges [demoTabLine, demoTab2Line, demoTab3Line])).getLast? =
      some ⟨3, strL "a.txt", some 200, some 5000, strL "plaintext", strL "z"⟩) ∧
    (⟨3, strL "a.txt", some 200, some 5000, strL "plaintext", strL "z"⟩ : Change).endTime =
      some 5000 :=
  ⟨by decide,
   (interval_closure.1 [demoTabLine, demoTab2Line, demoTab3Line] 5000).2 _ (by decide)⟩

/-! ## Sequence contiguity and time ordering (claim C8) -/

theorem setLastEnd_length (l : List Change) (t : Option Int) :
    (setLastEnd l t).length = l.length := by
  rcases list_nil_or_last l with rfl | ⟨xs, c, rfl⟩
  · rfl
  · rw [setLastEnd_concat]; simp

theorem processCSVLine_sequence_none (line : Str) (c : Change)
    (h : processCSVLine line none = some c) : c.sequence = 1 := by
  unfold processCSVLine at h
  cases h0 : parseIntJs (csvField line 0) with
  | none => simp [h0] at h
  | some k =>
    simp only [h0] at h
    rw [← Option.some.inj h]

theorem processCSVLine_sequence_some (line : Str) (prev c : Change)
    (h : processCSVLine line (some prev) = some c) : c.sequence = prev.sequence + 1 := by
  unfold processCSVLine at h
  cases h0 : parseIntJs (csvField line 0) with
  | none => simp [h0] at h
  | some k =>
    simp only [h0] at h
    split at h
    · exact absurd h (by simp)
    · rw [← Option.some.inj h]

theorem processCSVLine_startTime (line : Str) (p : Option Change) (c : Change)
    (h : processCSVLine line p = some c) :
    c.startTime = parseIntJs (csvField line 1) ∧ (parseIntJs (csvField line 0)).isSome = true := by
  cases p with
  | none =>
    unfold processCSVLine at h
    cases h0 : parseIntJs (csvField line 0) with
    | none => simp [h0] at h
    | some k =>
      simp only [h0] at h
      exact ⟨by rw [← Option.some.inj h], rfl⟩
  | some prev =>
    unfold processCSVLine at h
    cases h0 : parseIntJs (csvField line 0) with
    | none => simp [h0] at h
    | some k =>
      simp only [h0] at h
      split at h
      · exact absurd h (by simp)
      · exact ⟨by rw [← Option.some.inj h], rfl⟩

theorem last_sequence_of_map_range (acc : List Change)
    (h : acc.map Change.sequence = List.range' 1 acc.length) :
    ∀ p, acc.getLast? = some p → p.sequence = acc.length := by
  intro p hp
  have := congrArg List.getLast? h
  rw [List.getLast?_range'] at this
  rcases list_nil_or_last acc with rfl | ⟨xs, q, rfl⟩
  · simp at hp
  · rw [List.getLast?_concat] at hp
    have hqp := Option.some.inj hp
    rw [List.map_append, List.map_cons, List.map_nil, List.getLast?_concat] at this
    have hlen : (xs ++ [q]).length ≠ 0 := by simp
    rw [if_neg hlen] at this
    have h2 := Option.some.inj this
    rw [← hqp]
    omega

theorem processChanges_sequences : ∀ (lines : List Str) (acc : List Change),
    acc.map Change.sequence = List.range' 1 acc.length →
    (lines.foldl stepChange acc).map Change.sequence =
      List.range' 1 (lines.foldl stepChange acc).length := by
  intro lines
  induction lines with
  | nil => intro acc h; exact h
  | cons l rest ih =>
    intro acc h
    rw [List.foldl_cons]
    apply ih
    unfold stepChange
    cases hp : processCSVLine l acc.getLast? with
    | none => exact h
    | some c =>
      rw [List.map_append, setLastEnd_map_sequence, List.length_append, setLastEnd_length, h]
      have hseq : c.sequence = acc.length + 1 := by
        rcases list_nil_or_last acc with rfl | ⟨xs, q, rfl⟩
        · simpa using processCSVLine_sequence_none l c hp
        · rw [List.getLast?_concat] at hp
          have h1 := processCSVLine_sequence_some l q c hp
          have h2 := last_sequence_of_map_range _ h q (List.getLast?_concat _)
          rw [h1, h2]
      rw [List.map_cons, List.map_nil, List.length_cons, List.length_nil, List.range'_concat]
      rw [hseq]
      simp [Nat.add_comm]

theorem mem_setLastEnd_startTime (l : List Change) (t : Option Int) (c : Change)
    (hc : c ∈ setLastEnd l t) : ∃ c₀ ∈ l, c.startTime = c₀.startTime := by
  rcases list_nil_or_last l with rfl | ⟨xs, q, rfl⟩
  · exact absurd hc (by simp [setLastEnd])
  · rw [setLastEnd_concat] at hc
    rcases List.mem_append.mp hc with h | h
    · exact ⟨c, List.mem_append.mpr (Or.inl h), rfl⟩
    · have he : c = { q with endTime := t } := by simpa using h
      exact ⟨q, List.mem_append.mpr (Or.inr (by simp)), by rw [he]⟩

theorem chain'_startLE_setLastEnd (l : List Change) (t : Option Int)
    (h : List.Chain' startLE l) : List.Chain' startLE (setLastEnd l t) := by
  rcases list_nil_or_last l with rfl | ⟨xs, q, rfl⟩
  · exact h
  · rw [setLastEnd_concat]
    rw [List.chain'_append] at h ⊢
    obtain ⟨h1, _, h3⟩ := h
    refine ⟨h1, List.chain'_singleton _, ?_⟩
    intro x hx y hy
    have hye : { q with endTime := t } = y := by simpa using hy
    obtain ⟨s₁, s₂, a1, a2, a3⟩ := h3 x hx q (by simp)
    exact ⟨s₁, s₂, a1, by rw [← hye]; exact a2, a3⟩

theorem rowTimes_cons_of_none (l : Str) (rest : List Str) (h : rowTime l = none) :
    rowTimes (l :: rest) = rowTimes rest := by
  simp [rowTimes, List.filterMap_cons, h]

theorem rowTimes_cons_of_some (l : Str) (rest : List Str) (t : Int) (h : rowTime l = some t) :
    rowTimes (l :: rest) = t :: rowTimes rest := by
  simp [rowTimes, List.filterMap_cons, h]

theorem rowTimes_sub (l : Str) (rest : List Str) (t : Int) (h : t ∈ rowTimes rest) :
    t ∈ rowTimes (l :: rest) := by
  cases hr : rowTime l with
  | none => rw [rowTimes_cons_of_none _ _ hr]; exact h
  | some t' => rw [rowTimes_cons_of_some _ _ _ hr]; exact List.mem_cons_of_mem _ h

theorem processCSVLine_rowTime (line : Str) (p : Option Change) (c : Change)
    (h : processCSVLine line p = some c) (hv : (parseIntJs (csvField line 1)).isSome = true) :
    ∃ t, rowTime line = some t ∧ c.startTime = some t := by
  obtain ⟨hst, h0⟩ := processCSVLine_startTime line p c h
  obtain ⟨t, ht⟩ := Option.isSome_iff_exists.mp hv
  refine ⟨t, ?_, by rw [hst, ht]⟩
  unfold rowTime
  cases h0' : parseIntJs (csvField line 0) with
  | none => rw [h0'] at h0; simp at h0
  | some k => simp only [h0']; exact ht

theorem replay_mono_aux :
    ∀ (lines : List Str) (acc : List Change) (duration : Int),
      (∀ l ∈ lines, (parseIntJs (csvField l 0)).isSome = true →
        (parseIntJs (csvField l 1)).isSome = true) →
      List.Pairwise (· ≤ ·) (rowTimes lines) →
      (∀ t ∈ rowTimes lines, t ≤ duration) →
      (∀ c ∈ acc, ∃ s, c.startTime = some s ∧ s ≤ duration) →
      (∀ b, acc.getLast? = some b → ∀ s, b.startTime = some s →
        ∀ t ∈ rowTimes lines, s ≤ t) →
      List.Chain' startLE acc →
      (∀ c ∈ lines.foldl stepChange acc, ∃ s, c.startTime = some s ∧ s ≤ duration) ∧
      List.Chain' startLE (lines.foldl stepChange acc) := by
  intro lines
  induction lines with
  | nil => intro acc duration _ _ _ hA _ hC; exact ⟨hA, hC⟩
  | cons l rest ih =>
    intro acc duration hValid hPW hBound hA hD hC
    rw [List.foldl_cons]
    cases hp : processCSVLine l acc.getLast? with
    | none =>
      have hstep : stepChange acc l = acc := by unfold stepChange; rw [hp]
      rw [hstep]
      refine ih acc duration (fun l' hl' => hValid l' (List.mem_cons_of_mem _ hl')) ?_
        (fun t ht => hBound t (rowTimes_sub l rest t ht)) hA
        (fun b hb s hs t ht => hD b hb s hs t (rowTimes_sub l rest t ht)) hC
      cases hr : rowTime l with
      | none => rw [rowTimes_cons_of_none _ _ hr] at hPW; exact hPW
      | some t' => rw [rowTimes_cons_of_some _ _ _ hr] at hPW
                   exact (List.pairwise_cons.mp hPW).2
    | some c =>
      have hstep : stepChange acc l = setLastEnd acc c.startTime ++ [c] := by
        unfold stepChange; rw [hp]
      rw [hstep]
      obtain ⟨hst, h0⟩ := processCSVLine_startTime l _ c hp
      have hv1 := hValid l (List.mem_cons_self _ _) h0
      obtain ⟨t, hrt, hcst⟩ := processCSVLine_rowTime l _ c hp hv1
      have hrts : rowTimes (l :: rest) = t :: rowTimes rest := rowTimes_cons_of_some _ _ _ hrt
      rw [hrts] at hPW hBound
      have hPWr := List.pairwise_cons.mp hPW
      refine ih _ duration (fun l' hl' => hValid l' (List.mem_cons_of_mem _ hl')) hPWr.2
        (fun t' ht' => hBound t' (List.mem_cons_of_mem _ ht')) ?_ ?_ ?_
      · intro c' hc'
        rcases List.mem_append.mp hc' with hmem | hmem
        · obtain ⟨c₀, hc₀, heq⟩ := mem_setLastEnd_startTime acc _ c' hmem
          obtain ⟨s, hs, hsd⟩ := hA c₀ hc₀
          exact ⟨s, by rw [heq, hs], hsd⟩
        · have hce : c' = c := by simpa using hmem
          subst hce
          exact ⟨t, hcst, hBound t (List.mem_cons_self _ _)⟩
      · intro b hb s hs t' ht'
        rw [List.getLast?_concat] at hb
        obtain rfl : c = b := Option.some.inj hb
        rw [hcst] at hs
        obtain rfl : t = s := Option.some.inj hs
        exact hPWr.1 t' ht'
      · rw [List.chain'_append]
        refine ⟨chain'_startLE_setLastEnd acc _ hC, List.chain'_singleton _, ?_⟩
        intro x hx y hy
        have hye : c = y := by simpa using hy
        rw [← hye]
        rw [setLastEnd_getLast?] at hx
        cases hg : acc.getLast? with
        | none => rw [hg] at hx; simp at hx
        | some p =>
          rw [hg, Option.map_some'] at hx
          have hxe : { p with endTime := c.startTime } = x := by simpa using hx
          obtain ⟨s, hps, hsd⟩ := hA p (List.mem_of_getLast?_eq_some hg)
          have hle := hD p hg s hps t (by rw [hrts]; exact List.mem_cons_self _ _)
          refine ⟨s, t, ?_, hcst, hle⟩
          rw [← hxe]
          exact hps

theorem linked_chain_bound :
    ∀ (cs : List Change) (duration : Int), linked cs = true → List.Chain' startLE cs →
      (∀ b, cs.getLast? = some b → b.endTime = some duration) →
      (∀ c ∈ cs, ∃ s, c.startTime = some s ∧ s ≤ duration) →
      ∀ c ∈ cs, ∃ s e, c.startTime = some s ∧ c.endTime = some e ∧ s ≤ e := by
  intro cs
  induction cs with
  | nil => intro duration _ _ _ _ c hc; simp at hc
  | cons a tl ih =>
    intro duration hlk hch hlast hA c hc
    cases tl with
    | nil =>
      have hca : c = a := by simpa using hc
      subst hca
      obtain ⟨s, hs, hsd⟩ := hA c (by simp)
      exact ⟨s, duration, hs, hlast c rfl, hsd⟩
    | cons b t =>
      rcases List.mem_cons.mp hc with rfl | hmem
      · rw [linked_cons_cons, Bool.and_eq_true, beq_iff_eq] at hlk
        obtain ⟨⟨s₁, s₂, h1, h2, hle⟩, _⟩ := List.chain'_cons.mp hch
        exact ⟨s₁, s₂, h1, by rw [hlk.1, h2], hle⟩
      · rw [linked_cons_cons, Bool.and_eq_true] at hlk
        exact ih duration hlk.2 (List.chain'_cons.mp hch).2
          (fun b' hb' => hlast b' (by rw [List.getLast?_cons_cons]; exact hb'))
          (fun c' hc' => hA c' (List.mem_cons_of_mem _ hc')) c hmem

/-- Claim C8: the emitted changes' sequence numbers form the contiguous ascending
run 1, 2, ..., N whatever the log rows' own sequence numbers are, and — under the
data-model invariants of a captured log (the valid rows' times parse, are
nondecreasing, and are bounded by the session duration) — every emitted change
satisfies startTime ≤ endTime. -/
theorem sequences_contiguous_times_ordered :
    (∀ (lines : List Str) (duration : Int),
      (finalizeChanges duration (processChanges lines)).map Change.sequence =
        List.range' 1 (finalizeChanges duration (processChanges lines)).length) ∧
    (∀ (lines : List Str) (duration : Int),
      (∀ l ∈ lines, (parseIntJs (csvField l 0)).isSome = true →
        (parseIntJs (csvField l 1)).isSome = true) →
      List.Pairwise (· ≤ ·) (rowTimes lines) →
      (∀ t ∈ rowTimes lines, t ≤ duration) →
      ∀ c ∈ finalizeChanges duration (processChanges lines),
        ∃ s e, c.startTime = some s ∧ c.endTime = some e ∧ s ≤ e) := by
  constructor
  · intro lines duration
    unfold finalizeChanges
    rw [setLastEnd_map_sequence, setLastEnd_length]
    exact processChanges_sequences lines [] rfl
  · intro lines duration hValid hPW hBound
    obtain ⟨hA, hC⟩ := replay_mono_aux lines [] duration hValid hPW hBound
      (by simp) (by simp) List.chain'_nil
    apply linked_chain_bound (finalizeChanges duration (processChanges lines)) duration
    · exact linked_setLastEnd _ _ (processChanges_linked lines [] rfl)
    · exact chain'_startLE_setLastEnd _ _ hC
    · intro b hb
      unfold finalizeChanges at hb
      rw [setLastEnd_getLast?] at hb
      cases hg : (processChanges lines).getLast? with
      | none => rw [hg] at hb; simp at hb
      | some p =>
        rw [hg, Option.map_some'] at hb
        rw [← Option.some.inj hb]
    · intro c' hc'
      unfold finalizeChanges at hc'
      obtain ⟨c₀, hc₀, hEq⟩ := mem_setLastEnd_startTime _ _ _ hc'
      obtain ⟨s, hs, hsd⟩ := hA c₀ hc₀
      exact ⟨s, by rw [hEq, hs], hsd⟩

/-- Witness for C8 on the three-row example log with session duration 5000. -/
theorem sequences_times_witness :
    ((∀ l ∈ [demoTabLine, demoTab2Line, demoTab3Line],
        (parseIntJs (csvField l 0)).isSome = true →
          (parseIntJs (csvField l 1)).isSome = true) ∧
      List.Pairwise (· ≤ ·) (rowTimes [demoTabLine, demoTab2Line, demoTab3Line]) ∧
      (∀ t ∈ rowTimes [demoTabLine, demoTab2Line, demoTab3Line], t ≤ (5000 : Int))) ∧
    (∀ c ∈ finalizeChanges 5000 (processChanges [demoTabLine, demoTab2Line, demoTab3Line]),
      ∃ s e, c.startTime = some s ∧ c.endTime = some e ∧ s ≤ e) :=
  ⟨⟨by decide, by decide, by decide⟩,
   sequences_contiguous_times_ordered.2 [demoTabLine, demoTab2Line, demoTab3Line] 5000
     (by decide) (by decide) (by decide)⟩

end VSCR
